import Mathlib

set_option maxRecDepth 100000

/-!
Shallow embedding of `src/stego.py`, an LSB steganography codec, together
with theorems settling the specification claims about it.

Modelling conventions:
* The PIL image is modelled by `Stego.Img`: a width, a height and the flat
  list of 8-bit channel values laid out in the canonical slot order
  (channel varying fastest, then `y`, then `x`), so that the slot `(x, y, c)`
  denotes position `(x*H + y)*3 + c` of the flat list.  `pixels[x, y]`
  indexing of the source becomes reading/writing that position.
* Python exceptions become `Except Stego.Err`:
  `NotEnoughValuesException` is `Err.notEnoughValues`, the `ValueError` of
  `random.sample` is `Err.valueError`, a list `IndexError` is
  `Err.indexError`, the failed `assert`s of `read_byte`/`write_byte` are
  `Err.assertFail`, the two magic-byte `assert`s of `decode` are
  `Err.invalidHeader`, the capacity `assert` of `decode` is
  `Err.corruptedHeader`, and the range error of `struct.pack` is
  `Err.structError`.
* `encode` receives the four fresh seed bytes as an explicit argument
  (the source draws them from `random.getrandbits(8)`).
-/

namespace Stego

/-- A slot addresses one 8-bit channel value of one pixel: `(x, y, channel)`. -/
abbrev Slot := Nat × Nat × Nat

/-- In-memory RGB image: width, height, and the flat list of channel values
in canonical slot order (channel fastest, then `y`, then `x`). -/
structure Img where
  width : Nat
  height : Nat
  data : List Nat
deriving DecidableEq

/-- Flat position of a slot inside `Img.data`. -/
def idx (H : Nat) (s : Slot) : Nat := (s.1 * H + s.2.1) * 3 + s.2.2

/-- The channel value a slot addresses (`pixels[x, y][channel]`). -/
def getPix (img : Img) (s : Slot) : Nat := img.data.getD (idx img.height s) 0

/-- Error kinds of the codec; see the module comment for the mapping from
the Python exceptions. -/
inductive Err where
  | notEnoughValues
  | valueError
  | indexError
  | assertFail
  | invalidHeader
  | corruptedHeader
  | structError
deriving DecidableEq

/-- `write_bit`: clear the LSB of the addressed channel value and OR the
bit in (`orig[channel] &= 0b11111110; orig[channel] |= bit`). -/
def writeBit (img : Img) (bit : Nat) (loc : Slot) : Img :=
  { img with
    data := img.data.set (idx img.height loc) (getPix img loc &&& 254 ||| bit) }

/-- `read_bit`: `pixels[x, y][channel] & 1`. -/
def readBit (img : Img) (loc : Slot) : Nat := getPix img loc &&& 1

/-- The `while byte > 0` little-endian bit-expansion loop of `write_byte`,
with an explicit fuel (the loop halves `byte`, so fuel `n` suffices for
input `n`). -/
def natBitsAux : Nat → Nat → List Nat
  | _, 0 => []
  | 0, _ + 1 => []
  | fuel + 1, n + 1 => (n + 1) % 2 :: natBitsAux fuel ((n + 1) / 2)

/-- Little-endian bits of `n`, most significant last, `[]` for `0`
(the bit list `write_byte` builds before padding). -/
def natBits (n : Nat) : List Nat := natBitsAux n n

/-- `bits += [0] * (8 - len(bits))` of `write_byte`. -/
def padBits (b : Nat) : List Nat :=
  natBits b ++ List.replicate (8 - (natBits b).length) 0

/-- The write loop of `write_byte`: bit `i` goes to `locations[i]`;
running past the end of the location list is an index error. -/
def writeBits : Img → List Nat → List Slot → Except Err Img
  | img, [], _ => .ok img
  | _, _ :: _, [] => .error .indexError
  | img, b :: bs, l :: ls => writeBits (writeBit img b l) bs ls

/-- `write_byte`: assert the byte is in range, expand it into 8 bits
(LSB first) and write them to the given locations. -/
def writeByte (img : Img) (byte : Nat) (locs : List Slot) : Except Err Img :=
  if byte ≤ 255 then writeBits img (padBits byte) locs else .error .assertFail

/-- `read_byte`: assert exactly 8 locations, then accumulate from the last
location to the first, doubling each step. -/
def readByte (img : Img) (locs : List Slot) : Except Err Nat :=
  if locs.length = 8 then
    .ok (locs.reverse.foldl (fun r loc => r * 2 + readBit img loc) 0)
  else .error .assertFail

/-- The canonical slot enumeration built by `encode`: `x` outermost, then
`y`, then `channel`. -/
def validSpotsEnc (W H : Nat) : List Slot :=
  (List.range W).flatMap fun x =>
    (List.range H).flatMap fun y =>
      (List.range 3).map fun channel => (x, y, channel)

/-- The canonical slot enumeration built by `decode`: `x` outermost, then
`y`, then `channel`. -/
def validSpotsDec (W H : Nat) : List Slot :=
  (List.range W).flatMap fun x =>
    (List.range H).flatMap fun y =>
      (List.range 3).map fun channel => (x, y, channel)

/-- Modelled from the spec (§4.4 Sampler): the deterministic pseudo-random
generator behind `random.sample` lives in the Python standard library, not
in this repository; the spec only pins its contract (seedable from the
4 seed bytes, reproducible stream, uniform sampling without replacement,
identical in encode and decode).  We fix one concrete generator step, a
linear congruential update modulo `2^31`. -/
def lcg (s : Nat) : Nat := (s * 1103515245 + 12345) % 2147483648

/-- Modelled from the spec: the sampler's internal state derived from the
seed byte string (`random.seed(bytes(seed))`). -/
def seedToNat (seed : List Nat) : Nat := seed.foldl (fun a b => a * 256 + b) 0

/-- Modelled from the spec (§4.4): selection without replacement — each
step removes one position of the remaining pool, preserving the order of
selection. -/
def sampleGo : Nat → List Slot → Nat → List Slot
  | 0, _, _ => []
  | k + 1, pool, st =>
    match pool[lcg st % pool.length]? with
    | none => []
    | some s => s :: sampleGo k (pool.eraseIdx (lcg st % pool.length)) (lcg st)

/-- Modelled from the spec (§4.4): `random.sample(candidates, k)` — raises
`ValueError` when `k` exceeds the population size, otherwise returns `k`
slots drawn without replacement, deterministically from the seed. -/
def sample (cands : List Slot) (k : Nat) (seed : List Nat) : Except Err (List Slot) :=
  if k ≤ cands.length then .ok (sampleGo k cands (seedToNat seed))
  else .error .valueError

/-- `pack("<I", n)`: 4 little-endian bytes; `struct.error` out of range. -/
def packU32 (n : Nat) : Except Err (List Nat) :=
  if n < 4294967296 then
    .ok [n % 256, n / 256 % 256, n / 65536 % 256, n / 16777216 % 256]
  else .error .structError

/-- `unpack("<I", bytes)` on a 4-byte string. -/
def unpackU32 (bs : List Nat) : Nat :=
  bs.getD 0 0 + 256 * bs.getD 1 0 + 65536 * bs.getD 2 0 + 16777216 * bs.getD 3 0

/-- The `for byte in …: write_byte(pixels, byte, spots[c:c+8]); c += 8`
loops of `encode` (used for both the metadata and the message). -/
def writeBytesSeq : Img → List Nat → List Slot → Except Err Img
  | img, [], _ => .ok img
  | img, b :: bs, spots => do
    let img' ← writeByte img b (spots.take 8)
    writeBytesSeq img' bs (spots.drop 8)

/-- The slots `encode` samples for the payload:
`random.sample(valid_spots[80:], size * 8 + 1)`. -/
def encodeLocations (W H size : Nat) (seed : List Nat) : Except Err (List Slot) :=
  sample ((validSpotsEnc W H).drop 80) (size * 8 + 1) seed

/-- `encode(image, message)` with the four fresh seed bytes passed
explicitly.  Mirrors the source: capacity check, metadata assembly
(`b"\x90\xbf" + bytes(seed) + pack("<I", size)`), header write into the
first 80 canonical slots, sampling, payload write. -/
def encode (img : Img) (message : List Nat) (seed : List Nat) : Except Err Img :=
  let available := img.width * img.height * 3
  let size := message.length
  if available ≤ size * 8 + 72 then .error .notEnoughValues
  else do
    let sizeBytes ← packU32 size
    let metadata := [144, 191] ++ seed ++ sizeBytes
    let spots := validSpotsEnc img.width img.height
    let img1 ← writeBytesSeq img metadata spots
    let locations ← encodeLocations img.width img.height size seed
    writeBytesSeq img1 message locations

/-- The byte `decode` reads from canonical slots `[8*j, 8*j+8)`
(`read_byte(pixels, valid_spots[c:c+8])` with `c = 8*j`). -/
def decodeByte (img : Img) (j : Nat) : Except Err Nat :=
  readByte img (((validSpotsDec img.width img.height).drop (8 * j)).take 8)

/-- The `for i in range(size)` read loop of `decode`. -/
def readBytesSeq : Img → Nat → List Slot → Except Err (List Nat)
  | _, 0, _ => .ok []
  | img, n + 1, locs => do
    let b ← readByte img (locs.take 8)
    let rest ← readBytesSeq img n (locs.drop 8)
    pure (b :: rest)

/-- The slots `decode` samples for the payload:
`random.sample(valid_spots[80:], size * 8 + 1)`. -/
def decodeLocations (W H size : Nat) (seed : List Nat) : Except Err (List Slot) :=
  sample ((validSpotsDec W H).drop 80) (size * 8 + 1) seed

/-- `decode(image)`: read and check the magic bytes, read seed and size,
check capacity consistency, re-derive the sampled slots, read the payload. -/
def decode (img : Img) : Except Err (List Nat) := do
  let m0 ← decodeByte img 0
  if m0 = 144 then
    let m1 ← decodeByte img 1
    if m1 = 191 then do
      let s0 ← decodeByte img 2
      let s1 ← decodeByte img 3
      let s2 ← decodeByte img 4
      let s3 ← decodeByte img 5
      let z0 ← decodeByte img 6
      let z1 ← decodeByte img 7
      let z2 ← decodeByte img 8
      let z3 ← decodeByte img 9
      let seed := [s0, s1, s2, s3]
      let size := unpackU32 [z0, z1, z2, z3]
      let available := img.height * img.width * 3
      if available > size * 8 + 64 then do
        let locations ← decodeLocations img.width img.height size seed
        readBytesSeq img size locations
      else .error .corruptedHeader
    else .error .invalidHeader
  else .error .invalidHeader

/-- Decidable equality of codec results, for evaluating the codec on
concrete inputs. -/
instance {ε α : Type} [DecidableEq ε] [DecidableEq α] : DecidableEq (Except ε α) :=
  fun x y =>
    match x, y with
    | .ok a, .ok b =>
      if h : a = b then isTrue (by rw [h])
      else isFalse (fun hc => h (Except.ok.inj hc))
    | .ok _, .error _ => isFalse (fun hc => Except.noConfusion hc)
    | .error _, .ok _ => isFalse (fun hc => Except.noConfusion hc)
    | .error e, .error f =>
      if h : e = f then isTrue (by rw [h])
      else isFalse (fun hc => h (Except.error.inj hc))

end Stego

namespace Stego

/-- All channel values of an image are 8-bit. -/
def Vals8 (img : Img) : Prop := ∀ v ∈ img.data, v < 256

lemma lsb_write_and_one : ∀ v < 256, ∀ b ≤ 1, (v &&& 254 ||| b) &&& 1 = b := by decide

lemma lsb_write_div2 : ∀ v < 256, ∀ b ≤ 1, (v &&& 254 ||| b) / 2 = v / 2 := by decide

lemma lsb_write_lt : ∀ v < 256, ∀ b ≤ 1, v &&& 254 ||| b < 256 := by decide

/-- Value of a little-endian bit (or digit) list. -/
def lval : List Nat → Nat
  | [] => 0
  | b :: bs => b + 2 * lval bs

lemma foldl_double_reverse (f : Slot → Nat) :
    ∀ locs : List Slot,
      locs.reverse.foldl (fun r loc => r * 2 + f loc) 0 = lval (locs.map f) := by
  intro locs
  induction locs with
  | nil => rfl
  | cons l ls ih =>
    simp only [List.reverse_cons, List.foldl_append, List.foldl_cons, List.foldl_nil,
      List.map_cons, lval, ih]
    omega

lemma readByte_eq (img : Img) (locs : List Slot) (h : locs.length = 8) :
    readByte img locs = .ok (lval (locs.map (readBit img))) := by
  unfold readByte
  rw [if_pos h, foldl_double_reverse]

lemma natBitsAux_le_one : ∀ fuel n b, b ∈ natBitsAux fuel n → b ≤ 1 := by
  intro fuel
  induction fuel with
  | zero => intro n b hb; cases n <;> simp [natBitsAux] at hb
  | succ fuel ih =>
    intro n b hb
    cases n with
    | zero => simp [natBitsAux] at hb
    | succ m =>
      simp only [natBitsAux, List.mem_cons] at hb
      rcases hb with h | h
      · omega
      · exact ih _ _ h

lemma lval_natBitsAux : ∀ fuel n, n ≤ fuel → lval (natBitsAux fuel n) = n := by
  intro fuel
  induction fuel with
  | zero => intro n h; interval_cases n; rfl
  | succ fuel ih =>
    intro n h
    cases n with
    | zero => rfl
    | succ m =>
      have h2 : (m + 1) / 2 ≤ fuel := by omega
      simp only [natBitsAux, lval, ih _ h2]
      omega

lemma lval_natBits (n : Nat) : lval (natBits n) = n :=
  lval_natBitsAux n n le_rfl

lemma lval_append_zeros : ∀ (l : List Nat) (n : Nat),
    lval (l ++ List.replicate n 0) = lval l := by
  intro l
  induction l with
  | nil =>
    intro n
    induction n with
    | zero => rfl
    | succ k ihk => simpa [List.replicate_succ, lval] using ihk
  | cons b bs ih => intro n; simp [lval, ih]

lemma lval_padBits (b : Nat) : lval (padBits b) = b := by
  rw [padBits, lval_append_zeros, lval_natBits]

lemma padBits_le_one (b : Nat) : ∀ x ∈ padBits b, x ≤ 1 := by
  intro x hx
  rcases List.mem_append.mp hx with h | h
  · exact natBitsAux_le_one _ _ _ h
  · rw [List.eq_of_mem_replicate h]; omega

lemma natBits_length_le : ∀ b ≤ 255, (natBits b).length ≤ 8 := by decide

lemma padBits_length (b : Nat) (h : b ≤ 255) : (padBits b).length = 8 := by
  have := natBits_length_le b h
  simp only [padBits, List.length_append, List.length_replicate]
  omega

end Stego

namespace Stego

lemma getD_set_self (l : List Nat) (i a : Nat) (h : i < l.length) :
    (l.set i a).getD i 0 = a := by
  simp [List.getD_eq_getElem?_getD, List.getElem?_set, h]

lemma getD_set_ne (l : List Nat) (i j a : Nat) (h : i ≠ j) :
    (l.set i a).getD j 0 = l.getD j 0 := by
  simp [List.getD_eq_getElem?_getD, List.getElem?_set, h]

lemma getD_mem_of_lt (l : List Nat) (i : Nat) (h : i < l.length) : l.getD i 0 ∈ l := by
  rw [List.getD_eq_getElem?_getD, List.getElem?_eq_getElem h]
  exact List.getElem_mem h

lemma writeBit_width (img : Img) (b : Nat) (l : Slot) :
    (writeBit img b l).width = img.width := rfl

lemma writeBit_height (img : Img) (b : Nat) (l : Slot) :
    (writeBit img b l).height = img.height := rfl

lemma writeBit_length (img : Img) (b : Nat) (l : Slot) :
    (writeBit img b l).data.length = img.data.length := by
  simp [writeBit, List.length_set]

lemma writeBit_getD (img : Img) (b : Nat) (l : Slot) (j : Nat) :
    (writeBit img b l).data.getD j 0 =
      if j = idx img.height l ∧ j < img.data.length then
        img.data.getD j 0 &&& 254 ||| b
      else img.data.getD j 0 := by
  by_cases hr : idx img.height l < img.data.length
  · by_cases hj : j = idx img.height l
    · rw [if_pos ⟨hj, by omega⟩]
      show (img.data.set (idx img.height l) (getPix img l &&& 254 ||| b)).getD j 0 = _
      rw [hj, getD_set_self _ _ _ hr]
      rfl
    · rw [if_neg (by tauto)]
      exact getD_set_ne _ _ _ _ (Ne.symm hj)
  · show (img.data.set (idx img.height l) (getPix img l &&& 254 ||| b)).getD j 0 = _
    rw [List.set_eq_of_length_le (by omega), if_neg]
    rintro ⟨rfl, h2⟩
    omega

lemma writeBit_getD_ne (img : Img) (b : Nat) (l : Slot) (j : Nat)
    (h : j ≠ idx img.height l) :
    (writeBit img b l).data.getD j 0 = img.data.getD j 0 := by
  rw [writeBit_getD, if_neg (by tauto)]

lemma writeBit_readBit_self (img : Img) (b : Nat) (l : Slot)
    (hrange : idx img.height l < img.data.length) (hv : Vals8 img) (hb : b ≤ 1) :
    readBit (writeBit img b l) l = b := by
  unfold readBit getPix
  rw [writeBit_height, writeBit_getD, if_pos ⟨rfl, hrange⟩]
  exact lsb_write_and_one _ (hv _ (getD_mem_of_lt _ _ hrange)) _ hb

lemma writeBit_getD_div2 (img : Img) (b : Nat) (l : Slot) (hv : Vals8 img)
    (hb : b ≤ 1) (j : Nat) :
    (writeBit img b l).data.getD j 0 / 2 = img.data.getD j 0 / 2 := by
  rw [writeBit_getD]
  split
  next h => exact lsb_write_div2 _ (hv _ (getD_mem_of_lt _ _ h.2)) _ hb
  next => rfl

lemma writeBit_vals (img : Img) (b : Nat) (l : Slot) (hv : Vals8 img) (hb : b ≤ 1) :
    Vals8 (writeBit img b l) := by
  intro v hvmem
  rcases List.mem_or_eq_of_mem_set hvmem with h | rfl
  · exact hv _ h
  · by_cases hr : idx img.height l < img.data.length
    · exact lsb_write_lt _ (hv _ (getD_mem_of_lt _ _ hr)) _ hb
    · unfold getPix
      rw [List.getD_eq_getElem?_getD, List.getElem?_eq_none (by omega)]
      have : (0 : Nat) &&& 254 ||| b = b := by
        have hb1 : b = 0 ∨ b = 1 := by omega
        rcases hb1 with rfl | rfl <;> decide
      simp only [Option.getD_none, this]
      omega

end Stego

namespace Stego

lemma readBit_eq_of_getD (imgA imgB : Img) (l : Slot) (hh : imgA.height = imgB.height)
    (hg : imgA.data.getD (idx imgB.height l) 0 = imgB.data.getD (idx imgB.height l) 0) :
    readBit imgA l = readBit imgB l := by
  unfold readBit getPix
  rw [hh, hg]

lemma writeBits_err : ∀ (bits : List Nat) (locs : List Slot) (img : Img),
    locs.length < bits.length → writeBits img bits locs = .error .indexError := by
  intro bits
  induction bits with
  | nil => intro locs img h; simp at h
  | cons b bs ih =>
    intro locs img h
    cases locs with
    | nil => rfl
    | cons l ls =>
      show writeBits (writeBit img b l) bs ls = _
      exact ih ls _ (by simpa using h)

lemma writeBits_ok : ∀ (bits : List Nat) (locs : List Slot) (img : Img),
    bits.length ≤ locs.length → ∃ img', writeBits img bits locs = .ok img' := by
  intro bits
  induction bits with
  | nil => intro locs img _; exact ⟨img, rfl⟩
  | cons b bs ih =>
    intro locs img h
    cases locs with
    | nil => simp at h
    | cons l ls =>
      show ∃ img', writeBits (writeBit img b l) bs ls = .ok img'
      exact ih ls _ (by simpa using h)

lemma writeBits_error_kind : ∀ (bits : List Nat) (locs : List Slot) (img : Img) (e : Err),
    writeBits img bits locs = .error e → e = .indexError := by
  intro bits
  induction bits with
  | nil => intro locs img e h; exact absurd h (by simp [writeBits])
  | cons b bs ih =>
    intro locs img e h
    cases locs with
    | nil =>
      have h2 : (Except.error .indexError : Except Err Img) = .error e := h
      cases h2
      rfl
    | cons l ls => exact ih ls _ _ h

lemma writeBits_dims : ∀ (bits : List Nat) (locs : List Slot) (img img' : Img),
    writeBits img bits locs = .ok img' →
    img'.width = img.width ∧ img'.height = img.height ∧
      img'.data.length = img.data.length := by
  intro bits
  induction bits with
  | nil =>
    intro locs img img' h
    cases h
    exact ⟨rfl, rfl, rfl⟩
  | cons b bs ih =>
    intro locs img img' h
    cases locs with
    | nil => cases h
    | cons l ls =>
      have h' : writeBits (writeBit img b l) bs ls = .ok img' := h
      obtain ⟨h1, h2, h3⟩ := ih ls _ _ h'
      exact ⟨h1, h2, h3.trans (writeBit_length _ _ _)⟩

lemma writeBits_getD_ne : ∀ (bits : List Nat) (locs : List Slot) (img img' : Img) (j : Nat),
    writeBits img bits locs = .ok img' →
    (∀ l ∈ locs.take bits.length, j ≠ idx img.height l) →
    img'.data.getD j 0 = img.data.getD j 0 := by
  intro bits
  induction bits with
  | nil =>
    intro locs img img' j h _
    cases h
    rfl
  | cons b bs ih =>
    intro locs img img' j h hj
    cases locs with
    | nil => cases h
    | cons l ls =>
      have h' : writeBits (writeBit img b l) bs ls = .ok img' := h
      have hhead : j ≠ idx img.height l := by
        apply hj
        simp [List.take_succ_cons]
      have htail : ∀ l' ∈ ls.take bs.length, j ≠ idx (writeBit img b l).height l' := by
        intro l' hl'
        rw [writeBit_height]
        exact hj l' (by simp [List.take_succ_cons, hl'])
      rw [ih ls _ _ j h' htail]
      exact writeBit_getD_ne _ _ _ _ hhead

lemma writeBits_vals : ∀ (bits : List Nat) (locs : List Slot) (img img' : Img),
    writeBits img bits locs = .ok img' → Vals8 img → (∀ x ∈ bits, x ≤ 1) →
    Vals8 img' := by
  intro bits
  induction bits with
  | nil =>
    intro locs img img' h hv _
    cases h
    exact hv
  | cons b bs ih =>
    intro locs img img' h hv hb
    cases locs with
    | nil => cases h
    | cons l ls =>
      have h' : writeBits (writeBit img b l) bs ls = .ok img' := h
      exact ih ls _ _ h' (writeBit_vals _ _ _ hv (hb b (by simp)))
        (fun x hx => hb x (by simp [hx]))

lemma writeBits_div2 : ∀ (bits : List Nat) (locs : List Slot) (img img' : Img),
    writeBits img bits locs = .ok img' → Vals8 img → (∀ x ∈ bits, x ≤ 1) →
    ∀ j, img'.data.getD j 0 / 2 = img.data.getD j 0 / 2 := by
  intro bits
  induction bits with
  | nil =>
    intro locs img img' h _ _ j
    cases h
    rfl
  | cons b bs ih =>
    intro locs img img' h hv hb j
    cases locs with
    | nil => cases h
    | cons l ls =>
      have h' : writeBits (writeBit img b l) bs ls = .ok img' := h
      rw [ih ls _ _ h' (writeBit_vals _ _ _ hv (hb b (by simp)))
        (fun x hx => hb x (by simp [hx])) j]
      exact writeBit_getD_div2 _ _ _ hv (hb b (by simp)) j

lemma writeBits_readBit : ∀ (bits : List Nat) (locs : List Slot) (img img' : Img),
    writeBits img bits locs = .ok img' → Vals8 img → (∀ x ∈ bits, x ≤ 1) →
    ((locs.take bits.length).map (idx img.height)).Nodup →
    (∀ l ∈ locs.take bits.length, idx img.height l < img.data.length) →
    ∀ i (hi : i < bits.length) (hi' : i < locs.length),
      readBit img' (locs.get ⟨i, hi'⟩) = bits.get ⟨i, hi⟩ := by
  intro bits
  induction bits with
  | nil => intro locs img img' h hv hb hnd hr i hi; simp at hi
  | cons b bs ih =>
    intro locs img img' h hv hb hnd hr i hi hi'
    cases locs with
    | nil => cases h
    | cons l ls =>
      have h' : writeBits (writeBit img b l) bs ls = .ok img' := h
      simp only [List.length_cons, List.take_succ_cons, List.map_cons,
        List.nodup_cons] at hnd
      have hrhead : idx img.height l < img.data.length := by
        apply hr
        simp [List.take_succ_cons]
      have hb0 : b ≤ 1 := hb b (by simp)
      cases i with
      | zero =>
        show readBit img' l = b
        have hheight : img'.height = (writeBit img b l).height :=
          (writeBits_dims bs ls _ _ h').2.1
        have hgetD : img'.data.getD (idx img.height l) 0 =
            (writeBit img b l).data.getD (idx img.height l) 0 := by
          apply writeBits_getD_ne bs ls _ _ _ h'
          intro l' hl'
          rw [writeBit_height]
          intro hcontra
          exact hnd.1 (hcontra ▸ List.mem_map_of_mem (idx img.height) hl')
        have : readBit img' l = readBit (writeBit img b l) l := by
          apply readBit_eq_of_getD
          · rw [hheight, writeBit_height]
          · rw [writeBit_height]
            exact hgetD
        rw [this]
        exact writeBit_readBit_self _ _ _ hrhead hv hb0
      | succ i =>
        show readBit img' (ls.get ⟨i, by simpa using hi'⟩) = bs.get ⟨i, by simpa using hi⟩
        apply ih ls (writeBit img b l) img' h'
          (writeBit_vals _ _ _ hv hb0) (fun x hx => hb x (by simp [hx]))
        · rw [writeBit_height]
          exact hnd.2
        · intro l' hl'
          rw [writeBit_height, writeBit_length]
          exact hr l' (by simp [List.take_succ_cons, hl'])

end Stego

namespace Stego

lemma writeByte_ok_elim {img img' : Img} {b : Nat} {locs : List Slot}
    (h : writeByte img b locs = .ok img') :
    b ≤ 255 ∧ writeBits img (padBits b) locs = .ok img' := by
  rw [writeByte] at h
  split at h
  · exact ⟨‹_›, h⟩
  · cases h

lemma writeByte_ok (img : Img) {b : Nat} (locs : List Slot) (hb : b ≤ 255)
    (hlen : 8 ≤ locs.length) : ∃ img', writeByte img b locs = .ok img' := by
  rw [writeByte, if_pos hb]
  exact writeBits_ok _ _ _ (by rw [padBits_length b hb]; exact hlen)

lemma writeByte_err_short {img : Img} {b : Nat} {locs : List Slot} (hb : b ≤ 255)
    (hlen : locs.length < 8) : writeByte img b locs = .error .indexError := by
  rw [writeByte, if_pos hb]
  exact writeBits_err _ _ _ (by rw [padBits_length b hb]; exact hlen)

lemma writeByte_error_kind {img : Img} {b : Nat} {locs : List Slot} {e : Err}
    (h : writeByte img b locs = .error e) : e = .indexError ∨ e = .assertFail := by
  rw [writeByte] at h
  split at h
  · exact Or.inl (writeBits_error_kind _ _ _ _ h)
  · cases h
    exact Or.inr rfl

lemma writeByte_dims {img img' : Img} {b : Nat} {locs : List Slot}
    (h : writeByte img b locs = .ok img') :
    img'.width = img.width ∧ img'.height = img.height ∧
      img'.data.length = img.data.length :=
  writeBits_dims _ _ _ _ (writeByte_ok_elim h).2

lemma writeByte_vals {img img' : Img} {b : Nat} {locs : List Slot}
    (h : writeByte img b locs = .ok img') (hv : Vals8 img) : Vals8 img' :=
  writeBits_vals _ _ _ _ (writeByte_ok_elim h).2 hv (padBits_le_one b)

lemma writeByte_div2 {img img' : Img} {b : Nat} {locs : List Slot}
    (h : writeByte img b locs = .ok img') (hv : Vals8 img) (j : Nat) :
    img'.data.getD j 0 / 2 = img.data.getD j 0 / 2 :=
  writeBits_div2 _ _ _ _ (writeByte_ok_elim h).2 hv (padBits_le_one b) j

lemma writeByte_getD_ne {img img' : Img} {b : Nat} {locs : List Slot}
    (h : writeByte img b locs = .ok img') (j : Nat)
    (hj : ∀ l ∈ locs, j ≠ idx img.height l) :
    img'.data.getD j 0 = img.data.getD j 0 := by
  apply writeBits_getD_ne _ _ _ _ _ (writeByte_ok_elim h).2
  intro l hl
  exact hj l (List.take_subset _ _ hl)

lemma readByte_congr (imgA imgB : Img) (locs : List Slot)
    (hh : imgA.height = imgB.height)
    (hg : ∀ l ∈ locs,
      imgA.data.getD (idx imgB.height l) 0 = imgB.data.getD (idx imgB.height l) 0) :
    readByte imgA locs = readByte imgB locs := by
  by_cases hlen : locs.length = 8
  · rw [readByte_eq _ _ hlen, readByte_eq _ _ hlen]
    congr 1
    apply congrArg
    apply List.map_congr_left
    intro l hl
    exact readBit_eq_of_getD _ _ _ hh (hg l hl)
  · rw [readByte, if_neg hlen, readByte, if_neg hlen]

lemma writeByte_readByte {img img' : Img} {b : Nat} {locs8 : List Slot}
    (hw : writeByte img b locs8 = .ok img') (hv : Vals8 img)
    (hlen8 : locs8.length = 8)
    (hnd : (locs8.map (idx img.height)).Nodup)
    (hr : ∀ l ∈ locs8, idx img.height l < img.data.length) :
    readByte img' locs8 = .ok b := by
  obtain ⟨hb, hwb⟩ := writeByte_ok_elim hw
  have hpl := padBits_length b hb
  rw [readByte_eq _ _ hlen8]
  have hmap : locs8.map (readBit img') = padBits b := by
    apply List.ext_get
    · rw [List.length_map, hlen8, hpl]
    · intro n h1 h2
      have hn8 : n < locs8.length := by simpa using h1
      have hnp : n < (padBits b).length := by omega
      have hmapget : (locs8.map (readBit img')).get ⟨n, h1⟩ =
          readBit img' (locs8.get ⟨n, hn8⟩) := by
        simp
      rw [hmapget]
      have := writeBits_readBit (padBits b) locs8 img img' hwb hv
        (padBits_le_one b) ?_ ?_ n (by omega) hn8
      · exact this.trans rfl
      · rw [hpl, ← hlen8, List.take_length]
        exact hnd
      · rw [hpl, ← hlen8, List.take_length]
        exact hr
  rw [hmap, lval_padBits]

end Stego

namespace Stego

lemma writeBytesSeq_unfold (img : Img) (b : Nat) (bs : List Nat) (spots : List Slot) :
    writeBytesSeq img (b :: bs) spots =
      (writeByte img b (spots.take 8)).bind
        (fun img1 => writeBytesSeq img1 bs (spots.drop 8)) := rfl

lemma writeBytesSeq_err : ∀ (bs : List Nat) (locs : List Slot) (img : Img),
    (∀ b ∈ bs, b ≤ 255) → locs.length < 8 * bs.length →
    writeBytesSeq img bs locs = .error .indexError := by
  intro bs
  induction bs with
  | nil => intro locs img _ h; simp at h
  | cons b bs ih =>
    intro locs img hb hshort
    rw [writeBytesSeq_unfold]
    by_cases hl : locs.length < 8
    · rw [writeByte_err_short (hb b (by simp))
        (by rw [List.length_take]; omega)]
      rfl
    · obtain ⟨img1, h1⟩ := writeByte_ok img (locs.take 8) (hb b (by simp))
        (by rw [List.length_take]; omega)
      rw [h1]
      apply ih _ _ (fun x hx => hb x (by simp [hx]))
      rw [List.length_drop]
      simp only [List.length_cons] at hshort
      omega

lemma writeBytesSeq_ok : ∀ (bs : List Nat) (locs : List Slot) (img : Img),
    (∀ b ∈ bs, b ≤ 255) → 8 * bs.length ≤ locs.length →
    ∃ img', writeBytesSeq img bs locs = .ok img' := by
  intro bs
  induction bs with
  | nil => intro locs img _ _; exact ⟨img, rfl⟩
  | cons b bs ih =>
    intro locs img hb hlen
    simp only [List.length_cons] at hlen
    obtain ⟨img1, h1⟩ := writeByte_ok img (locs.take 8) (hb b (by simp))
      (by rw [List.length_take]; omega)
    obtain ⟨img', h2⟩ := ih (locs.drop 8) img1 (fun x hx => hb x (by simp [hx]))
      (by rw [List.length_drop]; omega)
    refine ⟨img', ?_⟩
    rw [writeBytesSeq_unfold, h1]
    exact h2

lemma writeBytesSeq_error_kind : ∀ (bs : List Nat) (locs : List Slot) (img : Img) (e : Err),
    writeBytesSeq img bs locs = .error e → e = .indexError ∨ e = .assertFail := by
  intro bs
  induction bs with
  | nil => intro locs img e h; cases h
  | cons b bs ih =>
    intro locs img e h
    rw [writeBytesSeq_unfold] at h
    cases hw : writeByte img b (locs.take 8) with
    | error e' =>
      rw [hw] at h
      have h2 : (Except.error e' : Except Err Img) = .error e := h
      cases h2
      exact writeByte_error_kind hw
    | ok img1 =>
      rw [hw] at h
      exact ih (locs.drop 8) img1 e h

lemma writeBytesSeq_dims : ∀ (bs : List Nat) (locs : List Slot) (img img' : Img),
    writeBytesSeq img bs locs = .ok img' →
    img'.width = img.width ∧ img'.height = img.height ∧
      img'.data.length = img.data.length := by
  intro bs
  induction bs with
  | nil => intro locs img img' h; cases h; exact ⟨rfl, rfl, rfl⟩
  | cons b bs ih =>
    intro locs img img' h
    rw [writeBytesSeq_unfold] at h
    cases hw : writeByte img b (locs.take 8) with
    | error e => rw [hw] at h; cases h
    | ok img1 =>
      rw [hw] at h
      obtain ⟨d1, d2, d3⟩ := writeByte_dims hw
      obtain ⟨e1, e2, e3⟩ := ih (locs.drop 8) img1 img' h
      exact ⟨e1.trans d1, e2.trans d2, e3.trans d3⟩

lemma writeBytesSeq_vals : ∀ (bs : List Nat) (locs : List Slot) (img img' : Img),
    writeBytesSeq img bs locs = .ok img' → Vals8 img → Vals8 img' := by
  intro bs
  induction bs with
  | nil => intro locs img img' h hv; cases h; exact hv
  | cons b bs ih =>
    intro locs img img' h hv
    rw [writeBytesSeq_unfold] at h
    cases hw : writeByte img b (locs.take 8) with
    | error e => rw [hw] at h; cases h
    | ok img1 =>
      rw [hw] at h
      exact ih (locs.drop 8) img1 img' h (writeByte_vals hw hv)

lemma writeBytesSeq_div2 : ∀ (bs : List Nat) (locs : List Slot) (img img' : Img),
    writeBytesSeq img bs locs = .ok img' → Vals8 img →
    ∀ j, img'.data.getD j 0 / 2 = img.data.getD j 0 / 2 := by
  intro bs
  induction bs with
  | nil => intro locs img img' h _ j; cases h; rfl
  | cons b bs ih =>
    intro locs img img' h hv j
    rw [writeBytesSeq_unfold] at h
    cases hw : writeByte img b (locs.take 8) with
    | error e => rw [hw] at h; cases h
    | ok img1 =>
      rw [hw] at h
      rw [ih (locs.drop 8) img1 img' h (writeByte_vals hw hv) j]
      exact writeByte_div2 hw hv j

lemma take_eight_split (locs : List Slot) (n : Nat) :
    locs.take (8 * (n + 1)) = locs.take 8 ++ (locs.drop 8).take (8 * n) := by
  rw [show 8 * (n + 1) = 8 + 8 * n from by ring, List.take_add]

lemma writeBytesSeq_getD_ne : ∀ (bs : List Nat) (locs : List Slot) (img img' : Img) (j : Nat),
    writeBytesSeq img bs locs = .ok img' →
    (∀ l ∈ locs.take (8 * bs.length), j ≠ idx img.height l) →
    img'.data.getD j 0 = img.data.getD j 0 := by
  intro bs
  induction bs with
  | nil => intro locs img img' j h _; cases h; rfl
  | cons b bs ih =>
    intro locs img img' j h hj
    rw [writeBytesSeq_unfold] at h
    cases hw : writeByte img b (locs.take 8) with
    | error e => rw [hw] at h; cases h
    | ok img1 =>
      rw [hw] at h
      rw [List.length_cons, take_eight_split] at hj
      have hd := writeByte_dims hw
      have htail : ∀ l ∈ (locs.drop 8).take (8 * bs.length), j ≠ idx img1.height l := by
        intro l hl
        rw [hd.2.1]
        exact hj l (List.mem_append_right _ hl)
      rw [ih (locs.drop 8) img1 img' j h htail]
      apply writeByte_getD_ne hw
      intro l hl
      exact hj l (List.mem_append_left _ hl)

lemma writeBytesSeq_readByte : ∀ (bs : List Nat) (locs : List Slot) (img img' : Img),
    writeBytesSeq img bs locs = .ok img' → Vals8 img →
    ((locs.take (8 * bs.length)).map (idx img.height)).Nodup →
    (∀ l ∈ locs.take (8 * bs.length), idx img.height l < img.data.length) →
    8 * bs.length ≤ locs.length →
    ∀ i (hi : i < bs.length),
      readByte img' ((locs.drop (8 * i)).take 8) = .ok (bs.get ⟨i, hi⟩) := by
  intro bs
  induction bs with
  | nil => intro _ _ _ _ _ _ _ _ i hi; simp at hi
  | cons b bs ih =>
    intro locs img img' h hv hnd hr hlen i hi
    rw [writeBytesSeq_unfold] at h
    cases hw : writeByte img b (locs.take 8) with
    | error e => rw [hw] at h; cases h
    | ok img1 =>
      rw [hw] at h
      simp only [List.length_cons] at hnd hr hlen
      rw [take_eight_split, List.map_append] at hnd
      rw [take_eight_split] at hr
      obtain ⟨hndA, hndB, hdisj⟩ := List.nodup_append.mp hnd
      have hd1 := writeByte_dims hw
      have hlen8 : (locs.take 8).length = 8 := by
        rw [List.length_take]
        omega
      cases i with
      | zero =>
        simp only [Nat.mul_zero, List.drop_zero]
        have hstep : readByte img' (locs.take 8) = readByte img1 (locs.take 8) := by
          apply readByte_congr
          · exact (writeBytesSeq_dims bs (locs.drop 8) img1 img' h).2.1
          · intro l hl
            apply writeBytesSeq_getD_ne bs (locs.drop 8) img1 img' _ h
            intro l' hl'
            rw [hd1.2.1]
            intro hcontra
            exact hdisj (List.mem_map_of_mem _ hl)
              (hcontra ▸ List.mem_map_of_mem _ hl')
        rw [hstep]
        exact writeByte_readByte hw hv hlen8 hndA
          (fun l hl => hr l (List.mem_append_left _ hl))
      | succ i =>
        have heq : locs.drop (8 * (i + 1)) = (locs.drop 8).drop (8 * i) := by
          rw [List.drop_drop]
          congr 1
          ring
        rw [heq]
        have hrec := ih (locs.drop 8) img1 img' h (writeByte_vals hw hv) ?_ ?_ ?_ i
          (by simp only [List.length_cons] at hi; omega)
        · exact hrec
        · rw [hd1.2.1]
          exact hndB
        · intro l hl
          rw [hd1.2.1, hd1.2.2]
          exact hr l (List.mem_append_right _ hl)
        · rw [List.length_drop]
          omega

lemma readBytesSeq_spec : ∀ (bs : List Nat) (locs : List Slot) (img : Img),
    (∀ i (hi : i < bs.length),
      readByte img ((locs.drop (8 * i)).take 8) = .ok (bs.get ⟨i, hi⟩)) →
    readBytesSeq img bs.length locs = .ok bs := by
  intro bs
  induction bs with
  | nil => intro locs img _; rfl
  | cons b bs ih =>
    intro locs img hread
    have h0 := hread 0 (by simp)
    simp only [Nat.mul_zero, List.drop_zero] at h0
    have hrest : readBytesSeq img bs.length (locs.drop 8) = .ok bs := by
      apply ih
      intro i hi
      have := hread (i + 1) (by simpa using hi)
      rw [show 8 * (i + 1) = 8 + 8 * i from by ring, ← List.drop_drop] at this
      exact this
    show (readByte img (locs.take 8)).bind
      (fun x => (readBytesSeq img bs.length (locs.drop 8)).bind
        (fun rest => pure (x :: rest))) = .ok (b :: bs)
    rw [h0, hrest]
    rfl

end Stego

namespace Stego

lemma get_not_mem_eraseIdx {α : Type} :
    ∀ (l : List α) (i : Nat) (h : i < l.length), l.Nodup → l.get ⟨i, h⟩ ∉ l.eraseIdx i := by
  intro l
  induction l with
  | nil => intro i h; simp at h
  | cons a l ih =>
    intro i h hnd
    rcases List.nodup_cons.mp hnd with ⟨ha, hl⟩
    cases i with
    | zero => simpa using ha
    | succ i =>
      rw [List.eraseIdx_cons_succ, List.get_cons_succ]
      intro hmem
      rcases List.mem_cons.mp hmem with heq | hmem'
      · exact ha (heq ▸ List.get_mem l i _)
      · exact ih i _ hl hmem'

lemma sampleGo_spec : ∀ (k : Nat) (pool : List Slot) (st : Nat), k ≤ pool.length →
    (sampleGo k pool st).length = k ∧ (∀ x ∈ sampleGo k pool st, x ∈ pool) ∧
      (pool.Nodup → (sampleGo k pool st).Nodup) := by
  intro k
  induction k with
  | zero =>
    intro pool st _
    exact ⟨rfl, by simp [sampleGo], fun _ => List.nodup_nil⟩
  | succ k ih =>
    intro pool st hk
    have hpos : 0 < pool.length := by omega
    have hi : lcg st % pool.length < pool.length := Nat.mod_lt _ hpos
    have hunfold : sampleGo (k + 1) pool st =
        pool.get ⟨lcg st % pool.length, hi⟩ ::
          sampleGo k (pool.eraseIdx (lcg st % pool.length)) (lcg st) := by
      simp only [sampleGo]
      rw [List.getElem?_eq_getElem hi]
      rfl
    have hlen' : k ≤ (pool.eraseIdx (lcg st % pool.length)).length := by
      rw [List.length_eraseIdx, if_pos hi]
      omega
    obtain ⟨ihl, ihm, ihn⟩ := ih (pool.eraseIdx (lcg st % pool.length)) (lcg st) hlen'
    refine ⟨?_, ?_, ?_⟩
    · rw [hunfold]
      simp [ihl]
    · intro x hx
      rw [hunfold] at hx
      rcases List.mem_cons.mp hx with heq | hmem
      · exact heq ▸ List.get_mem pool _ hi
      · exact (List.eraseIdx_sublist pool _).subset (ihm x hmem)
    · intro hnd
      rw [hunfold]
      refine List.nodup_cons.mpr ⟨?_, ihn ((List.eraseIdx_sublist pool _).nodup hnd)⟩
      intro hmem
      exact get_not_mem_eraseIdx pool _ hi hnd (ihm _ hmem)

lemma sample_ok {cands : List Slot} {k : Nat} {seed : List Nat} (h : k ≤ cands.length) :
    sample cands k seed = .ok (sampleGo k cands (seedToNat seed)) := by
  rw [sample, if_pos h]

lemma sample_err {cands : List Slot} {k : Nat} {seed : List Nat} (h : cands.length < k) :
    sample cands k seed = .error .valueError := by
  rw [sample, if_neg (by omega)]

lemma sample_spec {cands : List Slot} {k : Nat} (seed : List Nat) (h : k ≤ cands.length) :
    ∃ l, sample cands k seed = .ok l ∧ l.length = k ∧ (∀ x ∈ l, x ∈ cands) ∧
      (cands.Nodup → l.Nodup) := by
  obtain ⟨h1, h2, h3⟩ := sampleGo_spec k cands (seedToNat seed) h
  exact ⟨_, sample_ok h, h1, h2, h3⟩

lemma sample_error_kind {cands : List Slot} {k : Nat} {seed : List Nat} {e : Err}
    (h : sample cands k seed = .error e) : e = .valueError := by
  rw [sample] at h
  split at h
  · cases h
  · cases h
    rfl

lemma flat3 : ∀ (n s : Nat),
    ((List.range n).flatMap fun y => [(s + y) * 3, (s + y) * 3 + 1, (s + y) * 3 + 2]) =
      List.range' (s * 3) (n * 3) := by
  intro n
  induction n with
  | zero => intro s; rfl
  | succ n ih =>
    intro s
    rw [List.range_succ, List.flatMap_append, ih, List.flatMap_singleton,
      show ((n + 1) * 3 : Nat) = 3 + n * 3 from by ring,
      show ([(s + n) * 3, (s + n) * 3 + 1, (s + n) * 3 + 2] : List Nat) =
        List.range' ((s + n) * 3) 3 from rfl,
      show ((s + n) * 3 : Nat) = s * 3 + 1 * (n * 3) from by ring,
      List.range'_append]

lemma flatK : ∀ (W K : Nat),
    ((List.range W).flatMap fun x => List.range' (x * K) K) = List.range' 0 (W * K) := by
  intro W
  induction W with
  | zero =>
    intro K
    rw [Nat.zero_mul]
    rfl
  | succ W ih =>
    intro K
    rw [List.range_succ, List.flatMap_append, ih, List.flatMap_singleton,
      show ((W + 1) * K : Nat) = K + W * K from by ring]
    simpa using List.range'_append 0 (W * K) K 1

lemma mapIdx_validSpots (W H : Nat) :
    (validSpotsEnc W H).map (idx H) = List.range (W * H * 3) := by
  unfold validSpotsEnc
  rw [List.map_flatMap]
  have hinner : ∀ x : Nat,
      ((((List.range H).flatMap fun y => (List.range 3).map fun c => (x, y, c))).map
        (idx H)) = List.range' (x * (H * 3)) (H * 3) := by
    intro x
    rw [List.map_flatMap]
    have h2 : ∀ y : Nat, (((List.range 3).map fun c => ((x, y, c) : Slot)).map (idx H)) =
        [(x * H + y) * 3, (x * H + y) * 3 + 1, (x * H + y) * 3 + 2] := fun y => rfl
    simp only [h2]
    rw [flat3 H (x * H), show ((x * H) * 3 : Nat) = x * (H * 3) from by ring]
  simp only [hinner]
  rw [flatK W (H * 3), List.range_eq_range', show (W * H * 3 : Nat) = W * (H * 3) from
    by ring]

lemma validSpots_same (W H : Nat) : validSpotsEnc W H = validSpotsDec W H := rfl

lemma length_validSpots (W H : Nat) : (validSpotsEnc W H).length = W * H * 3 := by
  have h := congrArg List.length (mapIdx_validSpots W H)
  simpa using h

lemma nodup_mapIdx_validSpots (W H : Nat) : ((validSpotsEnc W H).map (idx H)).Nodup := by
  rw [mapIdx_validSpots]
  exact List.nodup_range _

lemma idx_lt_of_mem_validSpots {W H : Nat} {l : Slot} (h : l ∈ validSpotsEnc W H) :
    idx H l < W * H * 3 := by
  have hm : idx H l ∈ (validSpotsEnc W H).map (idx H) := List.mem_map_of_mem _ h
  rw [mapIdx_validSpots] at hm
  exact List.mem_range.mp hm

lemma mem_take_range {N k x : Nat} (h : x ∈ (List.range N).take k) : x < k := by
  rw [List.take_range] at h
  have := List.mem_range.mp h
  omega

lemma mem_drop_range {N k x : Nat} (h : x ∈ (List.range N).drop k) : k ≤ x ∧ x < N := by
  rw [List.mem_iff_getElem] at h
  obtain ⟨n, hn, heq⟩ := h
  rw [List.getElem_drop] at heq
  rw [List.length_drop, List.length_range] at hn
  have hkn : k + n < N := by omega
  rw [List.getElem_range] at heq
  omega

lemma mem_take_drop_range {N k m x : Nat} (h : x ∈ ((List.range N).drop k).take m) :
    k ≤ x ∧ x < k + m ∧ x < N := by
  rw [List.mem_iff_getElem] at h
  obtain ⟨n, hn, heq⟩ := h
  rw [List.length_take, List.length_drop, List.length_range] at hn
  rw [List.getElem_take, List.getElem_drop, List.getElem_range] at heq
  omega

end Stego

namespace Stego

lemma ok_bind {α β : Type} (a : α) (f : α → Except Err β) :
    (Except.ok a : Except Err α) >>= f = f a := rfl

lemma encode_unfold (img : Img) (msg seed : List Nat)
    (hgt : msg.length * 8 + 72 < img.width * img.height * 3) :
    encode img msg seed =
      (packU32 msg.length).bind fun sizeBytes =>
        (writeBytesSeq img ([144, 191] ++ seed ++ sizeBytes)
          (validSpotsEnc img.width img.height)).bind fun img1 =>
          (encodeLocations img.width img.height msg.length seed).bind fun locations =>
            writeBytesSeq img1 msg locations := by
  simp only [encode]
  rw [if_neg (by omega)]
  rfl

lemma encode_capacity_err (img : Img) (msg seed : List Nat)
    (hle : img.width * img.height * 3 ≤ msg.length * 8 + 72) :
    encode img msg seed = .error .notEnoughValues := by
  simp only [encode]
  rw [if_pos hle]

lemma decode_eval (img2 : Img) (a b c d z0 z1 z2 z3 : Nat)
    (h0 : decodeByte img2 0 = .ok 144) (h1 : decodeByte img2 1 = .ok 191)
    (h2 : decodeByte img2 2 = .ok a) (h3 : decodeByte img2 3 = .ok b)
    (h4 : decodeByte img2 4 = .ok c) (h5 : decodeByte img2 5 = .ok d)
    (h6 : decodeByte img2 6 = .ok z0) (h7 : decodeByte img2 7 = .ok z1)
    (h8 : decodeByte img2 8 = .ok z2) (h9 : decodeByte img2 9 = .ok z3)
    (hcap2 : unpackU32 [z0, z1, z2, z3] * 8 + 64 < img2.height * img2.width * 3) :
    decode img2 =
      (decodeLocations img2.width img2.height (unpackU32 [z0, z1, z2, z3])
        [a, b, c, d]).bind
        fun locations => readBytesSeq img2 (unpackU32 [z0, z1, z2, z3]) locations := by
  simp only [decode, h0, h1, h2, h3, h4, h5, h6, h7, h8, h9, ok_bind]
  norm_num
  rw [if_pos hcap2]
  rfl

end Stego

namespace Stego

lemma bind_ok {α β : Type} (a : α) (f : α → Except Err β) :
    (Except.ok a : Except Err α).bind f = f a := rfl

lemma bind_error {α β : Type} (e : Err) (f : α → Except Err β) :
    (Except.error e : Except Err α).bind f = .error e := rfl

lemma pool_map_idx (W H : Nat) :
    ((validSpotsEnc W H).drop 80).map (idx H) = (List.range (W * H * 3)).drop 80 := by
  rw [List.map_drop, mapIdx_validSpots]

lemma pool_nodup (W H : Nat) : ((validSpotsEnc W H).drop 80).Nodup := by
  apply List.Nodup.of_map (idx H)
  rw [pool_map_idx]
  exact (List.drop_sublist _ _).nodup (List.nodup_range _)

lemma roundTrip_master (img : Img) (msg : List Nat) (a b c d : Nat)
    (hwf : img.data.length = img.width * img.height * 3)
    (hvals : Vals8 img)
    (hmsg : ∀ x ∈ msg, x ≤ 255)
    (hseedv : ∀ x ∈ [a, b, c, d], x ≤ 255)
    (hsize : msg.length < 4294967296)
    (hcap : msg.length * 8 + 81 ≤ img.width * img.height * 3) :
    ∃ img', encode img msg [a, b, c, d] = .ok img' ∧ decode img' = .ok msg := by
  have hgt : msg.length * 8 + 72 < img.width * img.height * 3 := by omega
  have hp : packU32 msg.length = .ok [msg.length % 256, msg.length / 256 % 256,
      msg.length / 65536 % 256, msg.length / 16777216 % 256] := by
    rw [packU32, if_pos hsize]
  have hmetalen : ([144, 191] ++ [a, b, c, d] ++ [msg.length % 256,
      msg.length / 256 % 256, msg.length / 65536 % 256,
      msg.length / 16777216 % 256] : List Nat).length = 10 := by simp
  have hmeta_vals : ∀ x ∈ ([144, 191] ++ [a, b, c, d] ++ [msg.length % 256,
      msg.length / 256 % 256, msg.length / 65536 % 256,
      msg.length / 16777216 % 256] : List Nat), x ≤ 255 := by
    intro x hx
    have ha := hseedv a (by simp)
    have hb := hseedv b (by simp)
    have hc := hseedv c (by simp)
    have hd := hseedv d (by simp)
    simp only [List.append_assoc, List.mem_append, List.mem_cons,
      List.not_mem_nil, or_false] at hx
    rcases hx with h | h | h | h | h | h | h | h | h | h <;> omega
  have hlenspots : (validSpotsEnc img.width img.height).length =
      img.width * img.height * 3 := length_validSpots _ _
  -- header write
  obtain ⟨img1, hw1⟩ := writeBytesSeq_ok _ (validSpotsEnc img.width img.height) img
    hmeta_vals (by rw [hmetalen, hlenspots]; omega)
  -- payload slot sampling
  have hpoollen : ((validSpotsEnc img.width img.height).drop 80).length =
      img.width * img.height * 3 - 80 := by
    rw [List.length_drop, hlenspots]
  have hk : msg.length * 8 + 1 ≤ ((validSpotsEnc img.width img.height).drop 80).length := by
    omega
  obtain ⟨locs, hloc, hlocs_len, hlocs_mem, hlocs_nodup'⟩ :=
    sample_spec [a, b, c, d] hk
  have hlocE : encodeLocations img.width img.height msg.length [a, b, c, d] =
      .ok locs := hloc
  have hlocs_nodup : locs.Nodup := hlocs_nodup' (pool_nodup _ _)
  have hlocs_idx : ∀ l ∈ locs, 80 ≤ idx img.height l ∧
      idx img.height l < img.width * img.height * 3 := by
    intro l hl
    apply mem_drop_range
    rw [← pool_map_idx]
    exact List.mem_map_of_mem _ (hlocs_mem l hl)
  have hinj : ∀ x ∈ locs, ∀ y ∈ locs, idx img.height x = idx img.height y → x = y := by
    have hpm : (((validSpotsEnc img.width img.height).drop 80).map
        (idx img.height)).Nodup := by
      rw [pool_map_idx]
      exact (List.drop_sublist _ _).nodup (List.nodup_range _)
    intro x hx y hy hxy
    exact List.inj_on_of_nodup_map hpm (hlocs_mem x hx) (hlocs_mem y hy) hxy
  have hlocs_map_nodup : (locs.map (idx img.height)).Nodup :=
    List.Nodup.map_on hinj hlocs_nodup
  -- payload write
  obtain ⟨img2, hw2⟩ := writeBytesSeq_ok msg locs img1 hmsg (by omega)
  refine ⟨img2, ?_, ?_⟩
  · rw [encode_unfold _ _ _ hgt]
    simp only [hp, bind_ok, hw1, hlocE, hw2]
  -- decode side
  have hd1 := writeBytesSeq_dims _ _ _ _ hw1
  have hd2 := writeBytesSeq_dims _ _ _ _ hw2
  have himg2W : img2.width = img.width := hd2.1.trans hd1.1
  have himg2H : img2.height = img.height := hd2.2.1.trans hd1.2.1
  have himg1len : img1.data.length = img.width * img.height * 3 :=
    hd1.2.2.trans hwf
  have himg1vals : Vals8 img1 := writeBytesSeq_vals _ _ _ _ hw1 hvals
  -- header readback on img1
  have hread1 : ∀ j (hj : j < 10),
      readByte img1 (((validSpotsEnc img.width img.height).drop (8 * j)).take 8) =
        .ok (([144, 191] ++ [a, b, c, d] ++ [msg.length % 256, msg.length / 256 % 256,
          msg.length / 65536 % 256, msg.length / 16777216 % 256] : List Nat).get
          ⟨j, by rw [hmetalen]; omega⟩) := by
    intro j hj
    apply writeBytesSeq_readByte _ _ img img1 hw1 hvals
    · rw [hmetalen, List.map_take, mapIdx_validSpots, List.take_range]
      exact List.nodup_range _
    · intro l hl
      rw [hwf]
      exact idx_lt_of_mem_validSpots (List.take_subset _ _ hl)
    · rw [hmetalen, hlenspots]
      omega
  -- payload writes do not touch the header region
  have hread2 : ∀ j (hj : j < 10),
      readByte img2 (((validSpotsEnc img.width img.height).drop (8 * j)).take 8) =
        .ok (([144, 191] ++ [a, b, c, d] ++ [msg.length % 256, msg.length / 256 % 256,
          msg.length / 65536 % 256, msg.length / 16777216 % 256] : List Nat).get
          ⟨j, by rw [hmetalen]; omega⟩) := by
    intro j hj
    rw [← hread1 j hj]
    apply readByte_congr
    · exact hd2.2.1
    · intro l hl
      apply writeBytesSeq_getD_ne msg locs img1 img2 _ hw2
      intro l' hl'
      rw [hd1.2.1]
      have hlin : idx img.height l < 8 * j + 8 := by
        have hmem : idx img.height l ∈
            (((List.range (img.width * img.height * 3)).drop (8 * j)).take 8) := by
          rw [← mapIdx_validSpots, ← List.map_drop, ← List.map_take]
          exact List.mem_map_of_mem _ hl
        exact (mem_take_drop_range hmem).2.1
      have hge : 80 ≤ idx img.height l' :=
        (hlocs_idx l' (List.take_subset _ _ hl')).1
      omega
  -- evaluate decode
  have hdec : ∀ j (hj : j < 10), decodeByte img2 j =
      .ok (([144, 191] ++ [a, b, c, d] ++ [msg.length % 256, msg.length / 256 % 256,
        msg.length / 65536 % 256, msg.length / 16777216 % 256] : List Nat).get
        ⟨j, by rw [hmetalen]; omega⟩) := by
    intro j hj
    unfold decodeByte
    rw [himg2W, himg2H, ← validSpots_same]
    exact hread2 j hj
  have hunpack : unpackU32 [msg.length % 256, msg.length / 256 % 256,
      msg.length / 65536 % 256, msg.length / 16777216 % 256] = msg.length := by
    show msg.length % 256 + 256 * (msg.length / 256 % 256) +
      65536 * (msg.length / 65536 % 256) +
      16777216 * (msg.length / 16777216 % 256) = msg.length
    omega
  have hcap2 : unpackU32 [msg.length % 256, msg.length / 256 % 256,
      msg.length / 65536 % 256, msg.length / 16777216 % 256] * 8 + 64 <
      img2.height * img2.width * 3 := by
    rw [hunpack, himg2H, himg2W,
      show img.height * img.width * 3 = img.width * img.height * 3 from by ring]
    omega
  have h0 : decodeByte img2 0 = .ok 144 := hdec 0 (by omega)
  have h1 : decodeByte img2 1 = .ok 191 := hdec 1 (by omega)
  have h2 : decodeByte img2 2 = .ok a := hdec 2 (by omega)
  have h3 : decodeByte img2 3 = .ok b := hdec 3 (by omega)
  have h4 : decodeByte img2 4 = .ok c := hdec 4 (by omega)
  have h5 : decodeByte img2 5 = .ok d := hdec 5 (by omega)
  have h6 : decodeByte img2 6 = .ok (msg.length % 256) := hdec 6 (by omega)
  have h7 : decodeByte img2 7 = .ok (msg.length / 256 % 256) := hdec 7 (by omega)
  have h8 : decodeByte img2 8 = .ok (msg.length / 65536 % 256) := hdec 8 (by omega)
  have h9 : decodeByte img2 9 = .ok (msg.length / 16777216 % 256) := hdec 9 (by omega)
  rw [decode_eval img2 a b c d _ _ _ _ h0 h1 h2 h3 h4 h5 h6 h7 h8 h9 hcap2]
  rw [himg2W, himg2H, hunpack]
  have hloc2 : decodeLocations img.width img.height msg.length [a, b, c, d] =
      .ok locs := hlocE
  rw [hloc2, bind_ok]
  -- read the payload back
  apply readBytesSeq_spec
  intro i hi
  apply writeBytesSeq_readByte msg locs img1 img2 hw2 himg1vals
  · rw [hd1.2.1, List.map_take]
    exact (List.take_sublist _ _).nodup hlocs_map_nodup
  · intro l hl
    rw [hd1.2.1, himg1len]
    exact (hlocs_idx l (List.take_subset _ _ hl)).2
  · omega

end Stego

namespace Stego

lemma packU32_error_kind {n : Nat} {e : Err} (h : packU32 n = .error e) :
    e = .structError := by
  rw [packU32] at h
  split at h
  · cases h
  · cases h
    rfl

lemma sample_ok_elim {cands : List Slot} {k : Nat} {seed : List Nat} {l : List Slot}
    (h : sample cands k seed = .ok l) : k ≤ cands.length := by
  rw [sample] at h
  split at h
  · assumption
  · cases h

lemma metadata_vals (seed : List Nat) (n : Nat) (hseedv : ∀ x ∈ seed, x ≤ 255) :
    ∀ x ∈ ([144, 191] ++ seed ++ [n % 256, n / 256 % 256, n / 65536 % 256,
      n / 16777216 % 256] : List Nat), x ≤ 255 := by
  intro x hx
  rw [List.mem_append, List.mem_append] at hx
  rcases hx with (h | h) | h
  · simp only [List.mem_cons, List.not_mem_nil, or_false] at h
    rcases h with h | h <;> omega
  · exact hseedv x h
  · simp only [List.mem_cons, List.not_mem_nil, or_false] at h
    rcases h with h | h | h | h <;> omega

lemma metadata_length (seed : List Nat) (n : Nat) (h : seed.length = 4) :
    ([144, 191] ++ seed ++ [n % 256, n / 256 % 256, n / 65536 % 256,
      n / 16777216 % 256] : List Nat).length = 10 := by
  simp [h]

/-- Stages of a successful `encode` run with explicit outcomes; every claim
about encode's success or failure modes goes through this decomposition. -/
lemma encode_ok_master (img : Img) (msg seed : List Nat)
    (hmsg : ∀ x ∈ msg, x ≤ 255) (hseedlen : seed.length = 4)
    (hseedv : ∀ x ∈ seed, x ≤ 255) (hsize : msg.length < 4294967296)
    (hcap : msg.length * 8 + 81 ≤ img.width * img.height * 3) :
    ∃ img', encode img msg seed = .ok img' := by
  have hgt : msg.length * 8 + 72 < img.width * img.height * 3 := by omega
  have hp : packU32 msg.length = .ok [msg.length % 256, msg.length / 256 % 256,
      msg.length / 65536 % 256, msg.length / 16777216 % 256] := by
    rw [packU32, if_pos hsize]
  have hlenspots : (validSpotsEnc img.width img.height).length =
      img.width * img.height * 3 := length_validSpots _ _
  obtain ⟨img1, hw1⟩ := writeBytesSeq_ok _ (validSpotsEnc img.width img.height) img
    (metadata_vals seed msg.length hseedv)
    (by rw [metadata_length seed msg.length hseedlen, hlenspots]; omega)
  have hk : msg.length * 8 + 1 ≤
      ((validSpotsEnc img.width img.height).drop 80).length := by
    rw [List.length_drop, hlenspots]
    omega
  obtain ⟨locs, hloc, hlocs_len, _, _⟩ := sample_spec seed hk
  have hlocE : encodeLocations img.width img.height msg.length seed = .ok locs := hloc
  obtain ⟨img2, hw2⟩ := writeBytesSeq_ok msg locs img1 hmsg (by omega)
  refine ⟨img2, ?_⟩
  rw [encode_unfold _ _ _ hgt]
  simp only [hp, bind_ok, hw1, hlocE, hw2]

/-- If `encode` accepts the capacity check but the image has fewer than the
80 header slots, writing the header runs off the slot list. -/
lemma encode_gap_header (img : Img) (msg seed : List Nat)
    (hseedlen : seed.length = 4) (hseedv : ∀ x ∈ seed, x ≤ 255)
    (hsize : msg.length < 4294967296)
    (hgt : msg.length * 8 + 72 < img.width * img.height * 3)
    (hsmall : img.width * img.height * 3 < 80) :
    encode img msg seed = .error .indexError := by
  have hp : packU32 msg.length = .ok [msg.length % 256, msg.length / 256 % 256,
      msg.length / 65536 % 256, msg.length / 16777216 % 256] := by
    rw [packU32, if_pos hsize]
  rw [encode_unfold _ _ _ hgt]
  simp only [hp, bind_ok]
  rw [writeBytesSeq_err _ _ _ (metadata_vals seed msg.length hseedv)
    (by rw [metadata_length seed msg.length hseedlen, length_validSpots]; omega),
    bind_error]

/-- If the header fits but the image is within 8 slots of the capacity
bound, the sampler has fewer candidates than requested. -/
lemma encode_gap_sample (img : Img) (msg seed : List Nat)
    (hseedlen : seed.length = 4) (hseedv : ∀ x ∈ seed, x ≤ 255)
    (hsize : msg.length < 4294967296)
    (hgt : msg.length * 8 + 72 < img.width * img.height * 3)
    (h80 : 80 ≤ img.width * img.height * 3)
    (hsmall : img.width * img.height * 3 ≤ msg.length * 8 + 80) :
    encode img msg seed = .error .valueError := by
  have hp : packU32 msg.length = .ok [msg.length % 256, msg.length / 256 % 256,
      msg.length / 65536 % 256, msg.length / 16777216 % 256] := by
    rw [packU32, if_pos hsize]
  rw [encode_unfold _ _ _ hgt]
  simp only [hp, bind_ok]
  obtain ⟨img1, hw1⟩ := writeBytesSeq_ok _ (validSpotsEnc img.width img.height) img
    (metadata_vals seed msg.length hseedv)
    (by rw [metadata_length seed msg.length hseedlen, length_validSpots]; omega)
  rw [hw1, bind_ok]
  have hsampleErr : encodeLocations img.width img.height msg.length seed =
      .error .valueError := by
    apply sample_err
    rw [List.length_drop, length_validSpots]
    omega
  rw [hsampleErr, bind_error]

/-- `encode` succeeds only when there is room for the header and one more
than the payload's bit count after it. -/
lemma encode_ok_cap {img : Img} {msg seed : List Nat} {img' : Img}
    (h : encode img msg seed = .ok img') :
    msg.length * 8 + 81 ≤ img.width * img.height * 3 := by
  by_cases hle : img.width * img.height * 3 ≤ msg.length * 8 + 72
  · rw [encode_capacity_err _ _ _ hle] at h
    cases h
  · rw [encode_unfold _ _ _ (by omega)] at h
    cases hp : packU32 msg.length with
    | error e => rw [hp, bind_error] at h; cases h
    | ok pk =>
      rw [hp, bind_ok] at h
      cases hw1 : writeBytesSeq img ([144, 191] ++ seed ++ pk)
          (validSpotsEnc img.width img.height) with
      | error e => rw [hw1, bind_error] at h; cases h
      | ok img1 =>
        rw [hw1, bind_ok] at h
        cases hloc : encodeLocations img.width img.height msg.length seed with
        | error e => rw [hloc, bind_error] at h; cases h
        | ok locs =>
          have hk := sample_ok_elim hloc
          rw [List.length_drop, length_validSpots] at hk
          omega

/-- The only error the capacity check itself can raise, and the only place
`notEnoughValues` can arise. -/
lemma encode_nev_iff (img : Img) (msg seed : List Nat) :
    encode img msg seed = .error .notEnoughValues ↔
      img.width * img.height * 3 ≤ msg.length * 8 + 72 := by
  constructor
  · intro h
    by_contra hgt
    rw [encode_unfold _ _ _ (by omega)] at h
    cases hp : packU32 msg.length with
    | error e =>
      rw [hp, bind_error] at h
      injection h with h'
      have := packU32_error_kind hp
      subst h'
      cases this
    | ok pk =>
      rw [hp, bind_ok] at h
      cases hw1 : writeBytesSeq img ([144, 191] ++ seed ++ pk)
          (validSpotsEnc img.width img.height) with
      | error e =>
        rw [hw1, bind_error] at h
        injection h with h'
        subst h'
        rcases writeBytesSeq_error_kind _ _ _ _ hw1 with h2 | h2 <;> cases h2
      | ok img1 =>
        rw [hw1, bind_ok] at h
        cases hloc : encodeLocations img.width img.height msg.length seed with
        | error e =>
          rw [hloc, bind_error] at h
          injection h with h'
          subst h'
          have := sample_error_kind hloc
          cases this
        | ok locs =>
          rw [hloc, bind_ok] at h
          cases hw2 : writeBytesSeq img1 msg locs with
          | error e =>
            rw [hw2] at h
            injection h with h'
            subst h'
            rcases writeBytesSeq_error_kind _ _ _ _ hw2 with h2 | h2 <;> cases h2
          | ok img2 => rw [hw2] at h; cases h
  · exact encode_capacity_err img msg seed

end Stego

namespace Stego

lemma decodeByte_ok_len {img : Img} {j v : Nat} (h : decodeByte img j = .ok v) :
    8 * j + 8 ≤ img.width * img.height * 3 := by
  unfold decodeByte readByte at h
  split at h
  · next hlen =>
    rw [List.length_take, List.length_drop, ← validSpots_same,
      length_validSpots] at hlen
    omega
  · cases h

lemma decodeByte_total (img : Img) (j : Nat)
    (h : 8 * j + 8 ≤ img.width * img.height * 3) : ∃ v, decodeByte img j = .ok v := by
  unfold decodeByte
  have hlen : (((validSpotsDec img.width img.height).drop (8 * j)).take 8).length = 8 := by
    rw [List.length_take, List.length_drop, ← validSpots_same, length_validSpots]
    omega
  exact ⟨_, readByte_eq _ _ hlen⟩

lemma decode_invalid_eval (img : Img) (m0 m1 : Nat)
    (h0 : decodeByte img 0 = .ok m0) (h1 : decodeByte img 1 = .ok m1)
    (hm : ¬(m0 = 144 ∧ m1 = 191)) : decode img = .error .invalidHeader := by
  simp only [decode, h0, ok_bind]
  by_cases hm0 : m0 = 144
  · subst hm0
    rw [if_pos rfl]
    simp only [h1, ok_bind]
    rw [if_neg (by tauto)]
  · rw [if_neg hm0]

lemma decode_corrupt_eval (img2 : Img) (a b c d z0 z1 z2 z3 : Nat)
    (h0 : decodeByte img2 0 = .ok 144) (h1 : decodeByte img2 1 = .ok 191)
    (h2 : decodeByte img2 2 = .ok a) (h3 : decodeByte img2 3 = .ok b)
    (h4 : decodeByte img2 4 = .ok c) (h5 : decodeByte img2 5 = .ok d)
    (h6 : decodeByte img2 6 = .ok z0) (h7 : decodeByte img2 7 = .ok z1)
    (h8 : decodeByte img2 8 = .ok z2) (h9 : decodeByte img2 9 = .ok z3)
    (hcap2 : ¬(unpackU32 [z0, z1, z2, z3] * 8 + 64 < img2.height * img2.width * 3)) :
    decode img2 = .error .corruptedHeader := by
  simp only [decode, h0, h1, h2, h3, h4, h5, h6, h7, h8, h9, ok_bind]
  norm_num
  intro hc
  exact absurd hc hcap2

end Stego

namespace Stego

lemma seed_four {seed : List Nat} (h : seed.length = 4) :
    ∃ a b c d, seed = [a, b, c, d] := by
  rcases seed with _ | ⟨a, _ | ⟨b, _ | ⟨c, _ | ⟨d, rest⟩⟩⟩⟩ <;> simp at h
  exact ⟨a, b, c, d, by rw [h]⟩

lemma validSpots_getD (W H x y c : Nat) (hx : x < W) (hy : y < H) (hc : c < 3) :
    (validSpotsEnc W H).getD ((x * H + y) * 3 + c) (0, 0, 0) = (x, y, c) := by
  have hmem : ((x, y, c) : Slot) ∈ validSpotsEnc W H := by
    unfold validSpotsEnc
    simp only [List.mem_flatMap, List.mem_map, List.mem_range]
    exact ⟨x, hx, y, hy, c, hc, rfl⟩
  obtain ⟨p, hp, hgetp⟩ := List.mem_iff_getElem.mp hmem
  have hplt : p < ((validSpotsEnc W H).map (idx H)).length := by
    rw [List.length_map]
    exact hp
  have hchain : ((validSpotsEnc W H).map (idx H))[p]? = some (idx H (x, y, c)) := by
    rw [List.getElem?_eq_getElem hplt, List.getElem_map, hgetp]
  rw [mapIdx_validSpots] at hchain
  have hpN : p < (List.range (W * H * 3)).length := by
    rw [List.length_range, ← length_validSpots W H]
    exact hp
  rw [List.getElem?_eq_getElem hpN, List.getElem_range] at hchain
  have hpi : p = (x * H + y) * 3 + c := Option.some.inj hchain
  rw [List.getD_eq_getElem?_getD, ← hpi, List.getElem?_eq_getElem hp, hgetp]
  rfl

lemma lval_sum8 (g : Slot → Nat) (a0 a1 a2 a3 a4 a5 a6 a7 : Slot) :
    lval ([a0, a1, a2, a3, a4, a5, a6, a7].map g) =
      ∑ i ∈ Finset.range 8, g ([a0, a1, a2, a3, a4, a5, a6, a7].getD i (0, 0, 0)) * 2 ^ i := by
  simp [lval, Finset.sum_range_succ, List.getD_cons_zero, List.getD_cons_succ]
  ring

end Stego

namespace Stego

/-- C1 (corrected): for every 8-bit RGB image and byte payload, with four
fresh seed bytes, if `W*H*3 > size*8 + 80` (and `size` fits the 4-byte
header length field), then `decode (encode image payload) = payload`.  As
literally stated, with bound `size*8 + 72`, the law fails: in the window
`size*8+72 < W*H*3 ≤ size*8+80` the capacity check passes but encode still
errors, see `C1_counterexample`. -/
theorem C1_roundTrip (img : Img) (msg seed : List Nat)
    (hwf : img.data.length = img.width * img.height * 3)
    (hvals : ∀ v ∈ img.data, v < 256)
    (hmsg : ∀ x ∈ msg, x ≤ 255)
    (hseedlen : seed.length = 4) (hseedv : ∀ x ∈ seed, x ≤ 255)
    (hsize : msg.length < 4294967296)
    (hcap : msg.length * 8 + 80 < img.width * img.height * 3) :
    (encode img msg seed).bind decode = .ok msg := by
  obtain ⟨a, b, c, d, rfl⟩ := seed_four hseedlen
  obtain ⟨img', henc, hdec⟩ := roundTrip_master img msg a b c d hwf hvals hmsg
    hseedv hsize (by omega)
  rw [henc]
  exact hdec

/-- C1 witness: the spec's §8 concrete scenario — a 10×10 all-black image
round-trips the payload `0x41`. -/
theorem C1_roundTrip_witness :
    (encode ⟨10, 10, List.replicate 300 0⟩ [65] [0, 0, 0, 0]).bind decode = .ok [65] :=
  C1_roundTrip ⟨10, 10, List.replicate 300 0⟩ [65] [0, 0, 0, 0] (by decide) (by decide)
    (by decide) (by decide) (by decide) (by decide) (by decide)

/-- C1 counterexample: a 5×5 image with an empty payload satisfies
`W*H*3 = 75 > 72 = size*8 + 72`, yet encoding fails (the 10 header bytes
need 80 slots), so the round trip does not return the payload. -/
theorem C1_counterexample :
    0 * 8 + 72 < 5 * 5 * 3 ∧
      (encode ⟨5, 5, List.replicate 75 0⟩ [] [0, 0, 0, 0]).bind decode ≠ .ok [] := by
  decide

/-- C2 (corrected): `encode` raises `InsufficientCapacityError`
(`NotEnoughValuesException`) exactly when `W*H*3 ≤ size*8 + 72` — in
particular at equality — but `size*8 + 73 ≤ W*H*3` does not make encode
succeed (see `C2_counterexample`); success is guaranteed from
`size*8 + 81 ≤ W*H*3`. -/
theorem C2_capacityCheck (img : Img) (msg seed : List Nat)
    (hmsg : ∀ x ∈ msg, x ≤ 255) (hseedlen : seed.length = 4)
    (hseedv : ∀ x ∈ seed, x ≤ 255) (hsize : msg.length < 4294967296) :
    ((encode img msg seed = .error .notEnoughValues) ↔
      img.width * img.height * 3 ≤ msg.length * 8 + 72) ∧
    (msg.length * 8 + 81 ≤ img.width * img.height * 3 →
      ∃ img', encode img msg seed = .ok img') :=
  ⟨encode_nev_iff img msg seed,
   fun hcap => encode_ok_master img msg seed hmsg hseedlen hseedv hsize hcap⟩

/-- C2 witness: a 28×1 image (84 slots) with the empty payload — 84 is not
`≤ 72`, so no capacity error, and `81 ≤ 84` makes encode succeed. -/
theorem C2_capacityCheck_witness :
    ((encode ⟨28, 1, List.replicate 84 0⟩ [] [0, 0, 0, 0] = .error .notEnoughValues) ↔
      28 * 1 * 3 ≤ 0 * 8 + 72) ∧
    (0 * 8 + 81 ≤ 28 * 1 * 3 →
      ∃ img', encode ⟨28, 1, List.replicate 84 0⟩ [] [0, 0, 0, 0] = .ok img') :=
  C2_capacityCheck ⟨28, 1, List.replicate 84 0⟩ [] [0, 0, 0, 0] (by decide) (by decide)
    (by decide) (by decide)

/-- C2 counterexample: with `size = 1` and 81 slots, `size*8 + 73 ≤ 81`
holds, yet encode fails (in the sampler) instead of succeeding. -/
theorem C2_counterexample :
    1 * 8 + 73 ≤ 27 * 1 * 3 ∧
      encode ⟨27, 1, List.replicate 81 0⟩ [65] [0, 0, 0, 0] = .error .valueError := by
  decide

/-- C3 (corrected): in the window `size*8+72 < W*H*3 ≤ size*8+80` the
capacity check passes yet encode still fails — but with an index error in
the header write when `W*H*3 < 80` (possible only for `size = 0`), and
with the sampler's `ValueError` only when the 80 header slots exist;
encode completes without error exactly when `W*H*3 ≥ size*8 + 81`. -/
theorem C3_samplingGap (img : Img) (msg seed : List Nat)
    (hmsg : ∀ x ∈ msg, x ≤ 255) (hseedlen : seed.length = 4)
    (hseedv : ∀ x ∈ seed, x ≤ 255) (hsize : msg.length < 4294967296) :
    (msg.length * 8 + 72 < img.width * img.height * 3 →
      img.width * img.height * 3 < 80 →
      encode img msg seed = .error .indexError) ∧
    (msg.length * 8 + 72 < img.width * img.height * 3 →
      80 ≤ img.width * img.height * 3 →
      img.width * img.height * 3 ≤ msg.length * 8 + 80 →
      encode img msg seed = .error .valueError) ∧
    (msg.length * 8 + 81 ≤ img.width * img.height * 3 →
      ∃ img', encode img msg seed = .ok img') ∧
    (∀ img', encode img msg seed = .ok img' →
      msg.length * 8 + 81 ≤ img.width * img.height * 3) :=
  ⟨fun hgt hsmall =>
     encode_gap_header img msg seed hseedlen hseedv hsize hgt hsmall,
   fun hgt h80 hsmall =>
     encode_gap_sample img msg seed hseedlen hseedv hsize hgt h80 hsmall,
   fun hcap => encode_ok_master img msg seed hmsg hseedlen hseedv hsize hcap,
   fun _ h => encode_ok_cap h⟩

/-- C3 witness: 81 slots and a 1-byte payload — capacity check passes
(`80 < 81`), the header fits, but the sampler must draw 9 slots from 1
candidate and raises `ValueError`. -/
theorem C3_samplingGap_witness :
    encode ⟨27, 1, List.replicate 81 0⟩ [65] [0, 0, 0, 0] = .error .valueError :=
  (C3_samplingGap ⟨27, 1, List.replicate 81 0⟩ [65] [0, 0, 0, 0] (by decide) (by decide)
    (by decide) (by decide)).2.1 (by decide) (by decide) (by decide)

/-- C3 counterexample: at 75 slots with the empty payload the claim's
stated failure mode is wrong — the error is an index error raised while
writing the header, not the sampler's `ValueError`. -/
theorem C3_counterexample :
    0 * 8 + 72 < 25 * 1 * 3 ∧ 25 * 1 * 3 ≤ 0 * 8 + 80 ∧
      encode ⟨25, 1, List.replicate 75 0⟩ [] [0, 0, 0, 0] = .error .indexError ∧
      encode ⟨25, 1, List.replicate 75 0⟩ [] [0, 0, 0, 0] ≠ .error .valueError := by
  decide

/-- C4 (confirmed): if the two bytes read back from the first 16 canonical
slots are not `0x90` and `0xBF` respectively, decode fails with
`InvalidHeaderError`. -/
theorem C4_headerRejection (img : Img) (m0 m1 : Nat)
    (h0 : decodeByte img 0 = .ok m0) (h1 : decodeByte img 1 = .ok m1)
    (hm : ¬(m0 = 144 ∧ m1 = 191)) : decode img = .error .invalidHeader :=
  decode_invalid_eval img m0 m1 h0 h1 hm

/-- C4 witness: an all-zero 6×1 image reads magic byte `0 ≠ 0x90` and is
rejected. -/
theorem C4_headerRejection_witness :
    decode ⟨6, 1, List.replicate 18 0⟩ = .error .invalidHeader :=
  C4_headerRejection ⟨6, 1, List.replicate 18 0⟩ 0 0 (by decide) (by decide) (by decide)

/-- C5 (confirmed): if the magic bytes check out but the decoded size is
inconsistent with the image capacity (`W*H*3 ≤ size*8 + 64`), decode fails
with `CorruptedHeaderError` before reading any payload. -/
theorem C5_corruptedSize (img : Img) (z0 z1 z2 z3 : Nat)
    (h0 : decodeByte img 0 = .ok 144) (h1 : decodeByte img 1 = .ok 191)
    (h6 : decodeByte img 6 = .ok z0) (h7 : decodeByte img 7 = .ok z1)
    (h8 : decodeByte img 8 = .ok z2) (h9 : decodeByte img 9 = .ok z3)
    (hcap : img.height * img.width * 3 ≤ unpackU32 [z0, z1, z2, z3] * 8 + 64) :
    decode img = .error .corruptedHeader := by
  have hN := decodeByte_ok_len h9
  obtain ⟨s0, hs0⟩ := decodeByte_total img 2 (by omega)
  obtain ⟨s1, hs1⟩ := decodeByte_total img 3 (by omega)
  obtain ⟨s2, hs2⟩ := decodeByte_total img 4 (by omega)
  obtain ⟨s3, hs3⟩ := decodeByte_total img 5 (by omega)
  exact decode_corrupt_eval img s0 s1 s2 s3 z0 z1 z2 z3 h0 h1 hs0 hs1 hs2 hs3
    h6 h7 h8 h9 (by omega)

/-- C5 witness: a 4×7 image (84 slots) carrying valid magic bytes and the
length field 255 — `255*8 + 64` exceeds 84, so decode reports a corrupted
header. -/
theorem C5_corruptedSize_witness :
    decode ⟨4, 7, [0, 0, 0, 0, 1, 0, 0, 1] ++ [1, 1, 1, 1, 1, 1, 0, 1] ++
      List.replicate 32 0 ++ List.replicate 8 1 ++ List.replicate 28 0⟩ =
      .error .corruptedHeader :=
  C5_corruptedSize _ 255 0 0 0 (by decide) (by decide) (by decide) (by decide)
    (by decide) (by decide) (by decide)

/-- C6 (confirmed): encoder and decoder build the identical canonical slot
sequence: all `W*H*3` triples with `x` as the outermost loop, then `y`,
then `channel` — the slot `(x, y, c)` sits at position `(x*H + y)*3 + c`,
so the channel varies fastest, then `y`, then `x`. -/
theorem C6_canonicalOrder (W H : Nat) :
    validSpotsEnc W H = validSpotsDec W H ∧
    (validSpotsEnc W H).length = W * H * 3 ∧
    (∀ x, x < W → ∀ y, y < H → ∀ c, c < 3 →
      (validSpotsEnc W H).getD ((x * H + y) * 3 + c) (0, 0, 0) = (x, y, c)) :=
  ⟨validSpots_same W H, length_validSpots W H,
   fun x hx y hy c hc => validSpots_getD W H x y c hx hy hc⟩

/-- C6 witness: in a 2×2 image the slot `(1, 1, 2)` sits at position
`(1*2 + 1)*3 + 2 = 11`. -/
theorem C6_canonicalOrder_witness :
    (validSpotsEnc 2 2).getD ((1 * 2 + 1) * 3 + 2) (0, 0, 0) = (1, 1, 2) :=
  (C6_canonicalOrder 2 2).2.2 1 (by decide) 1 (by decide) 2 (by decide)

/-- C7 (confirmed): when encode succeeds, only the least-significant bits
of the 80 header slots and of the sampled payload slots change: the
dimensions and data length are unchanged, the 7 high bits of every channel
are unchanged, and every slot outside the header and sample regions keeps
its exact value. -/
theorem C7_frameEffect (img : Img) (msg seed : List Nat) (locs : List Slot)
    (img' : Img)
    (hvals : ∀ v ∈ img.data, v < 256)
    (hseedlen : seed.length = 4)
    (hloc : encodeLocations img.width img.height msg.length seed = .ok locs)
    (henc : encode img msg seed = .ok img') :
    img'.width = img.width ∧ img'.height = img.height ∧
    img'.data.length = img.data.length ∧
    (∀ j, img'.data.getD j 0 / 2 = img.data.getD j 0 / 2) ∧
    (∀ j, j ∉ ((validSpotsEnc img.width img.height).take 80).map (idx img.height) →
      j ∉ locs.map (idx img.height) →
      img'.data.getD j 0 = img.data.getD j 0) := by
  have hcap := encode_ok_cap henc
  rw [encode_unfold _ _ _ (by omega)] at henc
  cases hp : packU32 msg.length with
  | error e => rw [hp, bind_error] at henc; cases henc
  | ok pk =>
    rw [hp, bind_ok] at henc
    cases hw1 : writeBytesSeq img ([144, 191] ++ seed ++ pk)
        (validSpotsEnc img.width img.height) with
    | error e => rw [hw1, bind_error] at henc; cases henc
    | ok img1 =>
      rw [hw1, bind_ok, hloc, bind_ok] at henc
      have hpk : pk = [msg.length % 256, msg.length / 256 % 256,
          msg.length / 65536 % 256, msg.length / 16777216 % 256] := by
        rw [packU32] at hp
        split at hp
        · exact (Except.ok.inj hp).symm
        · cases hp
      have hmeta10 : ([144, 191] ++ seed ++ pk).length = 10 := by
        rw [hpk]
        exact metadata_length seed msg.length hseedlen
      have hd1 := writeBytesSeq_dims _ _ _ _ hw1
      have hd2 := writeBytesSeq_dims _ _ _ _ henc
      have himg1vals : Vals8 img1 := writeBytesSeq_vals _ _ _ _ hw1 hvals
      refine ⟨hd2.1.trans hd1.1, hd2.2.1.trans hd1.2.1,
        hd2.2.2.trans hd1.2.2, ?_, ?_⟩
      · intro j
        rw [writeBytesSeq_div2 _ _ _ _ henc himg1vals j]
        exact writeBytesSeq_div2 _ _ _ _ hw1 hvals j
      · intro j hjh hjl
        have h2 : img'.data.getD j 0 = img1.data.getD j 0 := by
          apply writeBytesSeq_getD_ne _ _ _ _ _ henc
          intro l hl
          rw [hd1.2.1]
          intro hcontra
          exact hjl (hcontra ▸
            List.mem_map_of_mem _ (List.take_subset _ _ hl))
        have h1 : img1.data.getD j 0 = img.data.getD j 0 := by
          apply writeBytesSeq_getD_ne _ _ _ _ _ hw1
          intro l hl
          rw [hmeta10] at hl
          intro hcontra
          exact hjh (hcontra ▸ List.mem_map_of_mem _ hl)
        exact h2.trans h1

/-- C7 witness: for the 27×1 all-zero image and empty payload, the high
bits of slot 4 — a header slot whose LSB is set to 1 — are unchanged. -/
theorem C7_frameEffect_witness :
    (Img.mk 27 1 ([0, 0, 0, 0, 1, 0, 0, 1, 1, 1, 1, 1, 1, 1, 0, 1] ++
      List.replicate 65 0)).data.getD 4 0 / 2 =
      (Img.mk 27 1 (List.replicate 81 0)).data.getD 4 0 / 2 :=
  (C7_frameEffect (Img.mk 27 1 (List.replicate 81 0)) [] [0, 0, 0, 0] [(26, 0, 2)]
    (Img.mk 27 1 ([0, 0, 0, 0, 1, 0, 0, 1, 1, 1, 1, 1, 1, 1, 0, 1] ++
      List.replicate 65 0))
    (by decide) (by decide) (by decide) (by decide)).2.2.2.1 4

/-- C8 (confirmed): `read_byte` of exactly 8 slots returns
`∑ i, bit(slot_i) * 2^i` — first slot least significant, accumulated from
the last slot backwards — and fails its length precondition otherwise. -/
theorem C8_readByteSpec (img : Img) (locs : List Slot) :
    readByte img locs =
      if locs.length = 8 then
        .ok (∑ i ∈ Finset.range 8, readBit img (locs.getD i (0, 0, 0)) * 2 ^ i)
      else .error .assertFail := by
  by_cases h : locs.length = 8
  · rw [readByte_eq _ _ h, if_pos h]
    rcases locs with _ | ⟨a0, _ | ⟨a1, _ | ⟨a2, _ | ⟨a3, _ | ⟨a4, _ |
      ⟨a5, _ | ⟨a6, _ | ⟨a7, rest⟩⟩⟩⟩⟩⟩⟩⟩ <;> simp at h
    subst h
    exact congrArg Except.ok (lval_sum8 (readBit img) a0 a1 a2 a3 a4 a5 a6 a7)
  · rw [readByte, if_neg h, if_neg h]

/-- C9 (corrected): for duplicate-free candidate lists — which
`canonical_slots[80:]` always is — every successful sample consists of
pairwise distinct members of the candidates, one per requested slot, and
both encode and decode invoke the sampler on `canonical_slots[80:]` with
`k = size*8 + 1`.  With duplicated candidates distinctness fails, see
`C9_counterexample`. -/
theorem C9_samplerDistinct (cands : List Slot) (k : Nat) (seed : List Nat)
    (l : List Slot) (hnd : cands.Nodup) (hs : sample cands k seed = .ok l) :
    (l.length = k ∧ l.Nodup ∧ ∀ s ∈ l, s ∈ cands) ∧
    (∀ W H n sd, encodeLocations W H n sd =
        sample ((validSpotsEnc W H).drop 80) (n * 8 + 1) sd ∧
      decodeLocations W H n sd =
        sample ((validSpotsDec W H).drop 80) (n * 8 + 1) sd) := by
  refine ⟨?_, fun W H n sd => ⟨rfl, rfl⟩⟩
  have hk := sample_ok_elim hs
  obtain ⟨l', h1, h2, h3, h4⟩ := sample_spec seed hk
  rw [hs] at h1
  cases h1
  exact ⟨h2, h4 hnd, h3⟩

/-- C9 witness: sampling 2 from the two distinct slots returns both, in the
order the generator picks them, pairwise distinct. -/
theorem C9_samplerDistinct_witness :
    ([((1, 0, 0) : Slot), (0, 0, 0)].length = 2 ∧
      ([((1, 0, 0) : Slot), (0, 0, 0)] : List Slot).Nodup ∧
      ∀ s ∈ ([((1, 0, 0) : Slot), (0, 0, 0)] : List Slot),
        s ∈ ([((0, 0, 0) : Slot), (1, 0, 0)] : List Slot)) :=
  (C9_samplerDistinct [((0, 0, 0) : Slot), (1, 0, 0)] 2 [0, 0, 0, 0]
    [((1, 0, 0) : Slot), (0, 0, 0)] (by decide) (by decide)).1

/-- C9 counterexample: with a duplicated candidate list the sampler's
output repeats a slot, so pairwise distinctness fails for arbitrary
candidate lists. -/
theorem C9_counterexample :
    2 ≤ ([((0, 0, 0) : Slot), (0, 0, 0)] : List Slot).length ∧
      sample [(0, 0, 0), (0, 0, 0)] 2 [0, 0, 0, 0] = .ok [(0, 0, 0), (0, 0, 0)] ∧
      ¬([((0, 0, 0) : Slot), (0, 0, 0)] : List Slot).Nodup := by
  decide

end Stego
